import Mathlib

/-!
Verification of the lain fuzzing library's generation, mutation and
serialization core against its specification.

The development is a shallow embedding of the relevant Rust sources:

* `src/lain/src/types.rs` — `UnsafeEnum`, `Constraints`, `Weighted`;
* `src/lain/src/buffer.rs` — `SerializedSize` / `BinarySerialize` impls;
* `src/lain_derive/src/new_fuzzed.rs` — the code emitted by the
  `NewFuzzed` derive for enums and structs (variant selection, budget
  threading);
* `src/lain_derive/src/fuzzerobject.rs` — the code emitted for `mutate`
  (enum and struct mutation, early bail, fixup).

The derive macros emit per-type Rust code; here that emission is embedded
denotationally: a type's shape (variants with weight/ignore/payload flags,
struct fields as abstract child generators/mutators) is explicit data, and
the Lean functions compute exactly what the emitted code computes on that
shape.  Randomness is an explicit parameter: a raw draw `r : Nat` stands
for the value the rng produced, and per-call-site boolean oracles stand for
the mutator's probabilistic yes/no queries.  Rust `usize` arithmetic is
modelled on `Nat` with explicit wrap-around modulo `2 ^ 64` where the
source performs unchecked arithmetic.
-/

namespace Lain

/-! ### Model of `src/lain/src/types.rs` -/

/-- Embeds `types.rs` `enum Weighted \x7b None, Min, Max \x7d`. -/
inductive Weighted where
  | None
  | Min
  | Max
deriving DecidableEq

/-- Embeds `types.rs` `struct Constraints<T>` (`min`, `max`, `weighted`,
`max_size`), with the numeric parameter instantiated to `Nat` and
`max_size : Option<usize>` as `Option Nat`. -/
structure Constraints where
  min : Option Nat
  max : Option Nat
  weighted : Weighted
  maxSize : Option Nat
deriving DecidableEq

/-- Embeds `types.rs` `enum UnsafeEnum<T, I> \x7b Valid(T), Invalid(I) \x7d`. -/
inductive UnsafeEnum (T P : Type) where
  | Valid (t : T)
  | Invalid (p : P)

/-- Embeds `impl ToPrimitive for UnsafeEnum` (`types.rs` lines 58-69):
`Valid(e)` delegates to `e.to_primitive()`, `Invalid(n)` returns `n`.
The element type's own `to_primitive` is the explicit argument `toPrim`. -/
def UnsafeEnum.to_primitive {T P : Type} (toPrim : T → P) :
    UnsafeEnum T P → P
  | .Valid e => toPrim e
  | .Invalid n => n

/-! ### Model of `src/lain/src/buffer.rs` -/

/-- Embeds `impl SerializedSize for UnsafeEnum<T, P>` (`buffer.rs` lines
32-41): the size is `std::mem::size_of::<P>()` — here the explicit
argument `sizeOfP` — regardless of which variant is held. -/
def UnsafeEnum.serialized_size {T P : Type} (sizeOfP : Nat)
    (_v : UnsafeEnum T P) : Nat :=
  sizeOfP

/-- Embeds `min_nonzero_elements_size` of `impl SerializedSize for
UnsafeEnum` (`buffer.rs` line 38): also `std::mem::size_of::<P>()`. -/
def UnsafeEnum.min_nonzero_elements_size (sizeOfP : Nat) : Nat :=
  sizeOfP

namespace StrBuf

/-- Embeds `impl SerializedSize for str/String::serialized_size`
(`buffer.rs` lines 66-86): `self.as_bytes().len()`, the UTF-8 byte
length of the string. -/
def serialized_size (s : String) : Nat :=
  s.utf8ByteSize

/-- Embeds `impl SerializedSize for str/String::min_nonzero_elements_size`
(`buffer.rs` lines 72-74 and 83-85): `std::mem::size_of::<char>()`,
which is 4 for Rust `char`. -/
def min_nonzero_elements_size : Nat :=
  4

end StrBuf

namespace VecBuf

/-- Embeds `impl<T> SerializedSize for Vec<T>::serialized_size`
(`buffer.rs` lines 47-59): `0` for an empty vector, otherwise the sum of
the per-element sizes given by the element impl `elemSize`. -/
def serialized_size {α : Type} (elemSize : α → Nat) (v : List α) : Nat :=
  if v.isEmpty then 0 else (v.map elemSize).sum

/-- Embeds `impl<T> SerializedSize for Vec<T>::min_nonzero_elements_size`
(`buffer.rs` lines 61-63): delegates to `T::min_nonzero_elements_size()`,
the explicit argument `elemMin`. -/
def min_nonzero_elements_size (elemMin : Nat) : Nat :=
  elemMin

end VecBuf

namespace U8Buf

/-- Embeds the `impl_serialized_size!` expansion for `u8` (`buffer.rs`
lines 199-216): `std::mem::size_of::<u8>() = 1`, ignoring the value. -/
def serialized_size (_v : Nat) : Nat :=
  1

/-- Embeds `min_nonzero_elements_size` for `u8` (`buffer.rs` line 208):
`std::mem::size_of::<u8>() = 1`. -/
def min_nonzero_elements_size : Nat :=
  1

end U8Buf

namespace BoolBuf

/-- Embeds `impl BinarySerialize for bool` (`buffer.rs` lines 98-107): the
value's underlying byte is read through a pointer cast (no 0/1
normalization) and appended to the sink with `write_u8`.  A fuzzer bool is
modelled as its backing byte `b`, the sink as a byte list. -/
def binary_serialize (b : Nat) (buffer : List Nat) : List Nat :=
  buffer ++ [b]

/-- Embeds the `impl_serialized_size!` expansion for `bool` (`buffer.rs`
lines 199-216): `std::mem::size_of::<bool>() = 1`. -/
def serialized_size (_b : Nat) : Nat :=
  1

end BoolBuf

end Lain

namespace Lain

/-- C9: for the possibly-invalid wrapper `UnsafeEnum<T, P>`,
`serialized_size` equals the byte width of the backing primitive `P` for
every value, whether it holds the `Valid` or the `Invalid` variant; and
`to_primitive()` on `Invalid(7)` returns exactly `7`. -/
theorem unsafe_enum_size_constant_and_to_primitive {T : Type} (sizeOfP : Nat)
    (toPrim : T → Nat) (v : UnsafeEnum T Nat) :
    UnsafeEnum.serialized_size sizeOfP v = sizeOfP ∧
    UnsafeEnum.to_primitive toPrim (UnsafeEnum.Invalid 7) = 7 :=
  ⟨rfl, rfl⟩

/-- C10: boolean serialization has size 1 byte and writes the value's
backing byte verbatim, without normalizing to 0/1: for every backing byte
`b` (including out-of-range patterns such as `0x07`), encoding appends
exactly the byte `b` to the sink. -/
theorem bool_serialize_verbatim (b : Nat) (buffer : List Nat)
    (_hb : b < 256) :
    BoolBuf.binary_serialize b buffer = buffer ++ [b] ∧
    BoolBuf.serialized_size b = 1 :=
  ⟨rfl, rfl⟩

/-- Witness for `bool_serialize_verbatim` at the spec's own example, the
out-of-range backing byte `0x07`: the encoding is `[0x07]`, not `[0x01]`. -/
theorem bool_serialize_verbatim_witness :
    BoolBuf.binary_serialize 7 [] = [] ++ [7] ∧
    BoolBuf.serialized_size 7 = 1 :=
  bool_serialize_verbatim 7 [] (by decide)

/-- C8 counterexample: `String::serialized_size` is the UTF-8 byte length,
so the one-character string `"a"` has nonzero serialized size 1, yet
`min_nonzero_elements_size()` for `str`/`String` is
`std::mem::size_of::<char>() = 4`, which is **not** a lower bound on
nonzero element sizes as the claim states. -/
theorem str_min_nonzero_not_lower_bound :
    StrBuf.serialized_size "a" = 1 ∧
    0 < StrBuf.serialized_size "a" ∧
    ¬ StrBuf.min_nonzero_elements_size ≤ StrBuf.serialized_size "a" := by
  refine ⟨rfl, ?_, ?_⟩ <;> decide

/-- C8 (amended): for `Vec<T>`, `min_nonzero_elements_size` delegates to
the element type's value; for a fixed-width element type such as `u8` it
is a tight lower bound — every `Vec<u8>` of nonzero serialized size has
size at least `1`, and a one-element vector attains it.  For `str` and
`String` the reported value is `size_of::<char>() = 4`, which is not a
lower bound: the one-byte string `"a"` has nonzero serialized size `1`. -/
theorem min_nonzero_elements_size_bounds (v : List Nat)
    (hv : 0 < VecBuf.serialized_size U8Buf.serialized_size v) :
    VecBuf.min_nonzero_elements_size U8Buf.min_nonzero_elements_size ≤
      VecBuf.serialized_size U8Buf.serialized_size v ∧
    VecBuf.serialized_size U8Buf.serialized_size [(0 : Nat)] =
      VecBuf.min_nonzero_elements_size U8Buf.min_nonzero_elements_size ∧
    StrBuf.min_nonzero_elements_size = 4 ∧
    StrBuf.serialized_size "a" = 1 := by
  refine ⟨?_, rfl, rfl, rfl⟩
  cases v with
  | nil => simp [VecBuf.serialized_size] at hv
  | cons x xs =>
    have h1 : VecBuf.serialized_size U8Buf.serialized_size (x :: xs)
        = (xs.map U8Buf.serialized_size).sum + 1 := by
      simp [VecBuf.serialized_size, U8Buf.serialized_size, Nat.add_comm]
    rw [show VecBuf.min_nonzero_elements_size U8Buf.min_nonzero_elements_size
          = 1 from rfl, h1]
    omega

/-- Witness for `min_nonzero_elements_size_bounds` at the one-element
vector `[5]`, whose serialized size is `1 > 0`. -/
theorem min_nonzero_elements_size_bounds_witness :
    VecBuf.min_nonzero_elements_size U8Buf.min_nonzero_elements_size ≤
      VecBuf.serialized_size U8Buf.serialized_size [(5 : Nat)] ∧
    VecBuf.serialized_size U8Buf.serialized_size [(0 : Nat)] =
      VecBuf.min_nonzero_elements_size U8Buf.min_nonzero_elements_size ∧
    StrBuf.min_nonzero_elements_size = 4 ∧
    StrBuf.serialized_size "a" = 1 :=
  min_nonzero_elements_size_bounds [5] (by decide)

end Lain

namespace Lain

/-! ### Model of the NewFuzzed derive for enums
(`src/lain_derive/src/new_fuzzed.rs`, `new_fuzzed_helper`, lines 20-178)

The macro walks the enum's variants, parsing a `#[weight(N)]` attribute
(default weight 1) and a `#[fuzzer(ignore)]` flag, skipping ignored
variants, and noting in `enum_contains_items` whether any non-ignored
variant has unnamed payload fields.  The emitted body builds a static
weight array over the non-ignored variants and a lazily constructed
`WeightedIndex` distribution over it; if the enum has payload variants it
samples the distribution and dispatches on the drawn index, where only
payload variants contribute a match arm (a drawn index with no arm hits
the `panic!` arm); otherwise it draws uniformly from the variant list
with `SliceRandom::choose`, never touching the weighted distribution. -/

/-- One enum variant as the derive macro sees it: its `#[weight(N)]`
value (default 1), its `#[fuzzer(ignore)]` flag, whether it carries
unnamed payload fields (`syn::Fields::Unnamed`), and how many. -/
structure EnumVariantSpec where
  weight : Nat
  ignore : Bool
  hasPayload : Bool
  numFields : Nat
deriving DecidableEq

instance : Inhabited EnumVariantSpec :=
  ⟨⟨1, false, false, 0⟩⟩

/-- The non-ignored variants, in declaration order — the macro `continue`s
past ignored variants before building match arms (lines 82-84, 138). -/
def keptVariants (vs : List EnumVariantSpec) : List EnumVariantSpec :=
  vs.filter (fun v => !v.ignore)

/-- The static `weights` array (line 170): weights of non-ignored
variants in order. -/
def keptWeights (vs : List EnumVariantSpec) : List Nat :=
  (keptVariants vs).map (fun v => v.weight)

/-- The macro's `enum_contains_items` flag: set while processing a
non-ignored variant with unnamed fields (line 93). -/
def enumContainsItems (vs : List EnumVariantSpec) : Bool :=
  (keptVariants vs).any (fun v => v.hasPayload)

/-- Modelled from the spec: `rand::distributions::WeightedIndex::new`
(an external crate; called at line 174).  Weights are `u64`, hence
non-negative; construction fails exactly when the total weight is zero
(which also covers the empty list), per the spec's weighted-selector
contract. -/
def weightedIndexNew (ws : List Nat) : Option (List Nat) :=
  if ws.sum = 0 then none else some ws

/-- Modelled from the spec: `WeightedIndex::sample` draws a uniform value
`r` below the total weight and returns the index it falls into by
cumulative weight (inverse CDF), so `P(i) = w_i / total`.  The raw draw
`r` is the explicit argument. -/
def weightedSample : List Nat → Nat → Nat
  | [], _ => 0
  | w :: ws, r => if r < w then 0 else weightedSample ws (r - w) + 1

/-- The variant-index selection performed by the emitted `new_fuzzed`
body (lines 143-178).  For an enum with payload variants the lazily
constructed `WeightedIndex` over `keptWeights` is sampled (`unwrap`
panics — `none` — if construction failed), and the drawn index `num` is
dispatched: only payload variants have a match arm (index `variants.len()`
at arm-construction time, line 110), a unit variant's index falls through
to the `panic!` arm.  For a unit-only enum, `options.choose(rng)` draws
uniformly from the non-ignored variants, ignoring the weights (and
`unwrap` panics when there are none). -/
def enumSelect (vs : List EnumVariantSpec) (r : Nat) : Option Nat :=
  let kept := keptVariants vs
  if enumContainsItems vs then
    match weightedIndexNew (keptWeights vs) with
    | none => none
    | some ws =>
      let num := weightedSample ws r
      match kept.get? num with
      | some v => if v.hasPayload then some num else none
      | none => none
  else
    if kept.length = 0 then none else some (r % kept.length)

/-- The emitted `new_fuzzed` for an enum, with the constraints it passes
to each payload field of the chosen variant made observable.  The
incoming `constraints` parameter of `new_fuzzed` is never read by the
enum body, and each payload field is initialized with
`NewFuzzed::new_fuzzed(mutator, None)` (line 105) — so the trace of
per-field constraint arguments is `replicate numFields none`. -/
def enumNewFuzzedWithTrace (vs : List EnumVariantSpec)
    (_constraints : Option Constraints) (r : Nat) :
    Option (Nat × List (Option Constraints)) :=
  (enumSelect vs r).bind (fun i =>
    ((keptVariants vs).get? i).map
      (fun v => (i, List.replicate v.numFields (none : Option Constraints))))

/-- Modelled from the spec: the claim's requirement that a payload
field's derived constraint carries the current remaining `max_size`. -/
def specDerivedConstraintCarriesBudget (passed : Option Constraints)
    (remaining : Option Nat) : Bool :=
  match passed with
  | some c => c.maxSize == remaining
  | none => false

end Lain

namespace Lain

/-- C2: constructing the weighted selector over an enum's non-ignored
variants whose weights sum to zero fails at selector construction time
(the `WeightedIndex::new(..).unwrap()` in the lazy initializer), and the
generation returns no value for any random draw — no draw is ever made
against a zero-total-weight distribution. -/
theorem zero_total_weight_fails_before_draw (vs : List EnumVariantSpec)
    (r : Nat)
    (hitems : enumContainsItems vs = true)
    (hzero : (keptWeights vs).sum = 0) :
    weightedIndexNew (keptWeights vs) = none ∧ enumSelect vs r = none := by
  have hconstr : weightedIndexNew (keptWeights vs) = none := by
    simp [weightedIndexNew, hzero]
  refine ⟨hconstr, ?_⟩
  simp [enumSelect, hitems, hconstr]

/-- Witness for `zero_total_weight_fails_before_draw`: a single payload
variant of weight 0. -/
theorem zero_total_weight_fails_before_draw_witness :
    weightedIndexNew (keptWeights [⟨0, false, true, 1⟩]) = none ∧
    enumSelect [⟨0, false, true, 1⟩] 5 = none :=
  zero_total_weight_fails_before_draw [⟨0, false, true, 1⟩] 5
    (by decide) (by decide)

/-- C3 counterexample: in an enum whose variants all carry no payload,
the emitted code draws **uniformly** with `SliceRandom::choose`, ignoring
the declared weights: with variants `A` (weight 1) and `B` (weight 0),
the draw `r = 1` selects `B` even though `B` has weight 0, so a weight-0
variant **can** be selected, contrary to the claim. -/
theorem unit_enum_weight_zero_selected :
    enumContainsItems [⟨1, false, false, 0⟩, ⟨0, false, false, 0⟩] = false ∧
    enumSelect [⟨1, false, false, 0⟩, ⟨0, false, false, 0⟩] 1 = some 1 ∧
    (keptWeights [⟨1, false, false, 0⟩, ⟨0, false, false, 0⟩]).getD 1 0 = 0 := by
  decide

end Lain

namespace Lain

/-- The sampled index is always in range when the raw draw is below the
total weight. -/
theorem weightedSample_lt (ws : List Nat) (r : Nat) (h : r < ws.sum) :
    weightedSample ws r < ws.length := by
  induction ws generalizing r with
  | nil => simp at h
  | cons w ws ih =>
    simp only [weightedSample]
    by_cases hr : r < w
    · rw [if_pos hr]
      exact Nat.succ_pos _
    · rw [if_neg hr]
      have hlt : r - w < ws.sum := by
        simp only [List.sum_cons] at h
        omega
      exact Nat.succ_lt_succ (ih _ hlt)

/-- Inverse-CDF counting: among the `total` equiprobable raw draws, index
`i` is sampled for exactly `w_i` of them. -/
theorem weightedSample_count (ws : List Nat) (i : Nat) :
    (List.range ws.sum).countP (fun r => weightedSample ws r == i)
      = ws.getD i 0 := by
  induction ws generalizing i with
  | nil => simp
  | cons w ws ih =>
    rw [List.sum_cons, List.range_add, List.countP_append, List.countP_map]
    cases i with
    | zero =>
      have hA : (List.range w).countP
          (fun r => weightedSample (w :: ws) r == 0) = (List.range w).length := by
        rw [List.countP_eq_length]
        intro r hr
        have hrw : r < w := List.mem_range.mp hr
        simp [weightedSample, hrw]
      have hB : (List.range ws.sum).countP
          ((fun r => weightedSample (w :: ws) r == 0) ∘ (w + ·)) = 0 := by
        rw [List.countP_eq_zero]
        intro r _
        have hge : ¬ (w + r < w) := by omega
        simp [Function.comp, weightedSample, hge]
      rw [hA, hB, List.length_range]
      simp [List.getD_cons_zero]
    | succ j =>
      have hA : (List.range w).countP
          (fun r => weightedSample (w :: ws) r == j + 1) = 0 := by
        rw [List.countP_eq_zero]
        intro r hr
        have hrw : r < w := List.mem_range.mp hr
        simp [weightedSample, hrw]
      have hB : (List.range ws.sum).countP
          ((fun r => weightedSample (w :: ws) r == j + 1) ∘ (w + ·))
          = (List.range ws.sum).countP (fun r => weightedSample ws r == j) := by
        apply List.countP_congr
        intro r _
        have hge : ¬ (w + r < w) := by omega
        simp only [Function.comp_apply, weightedSample, if_neg hge,
          Nat.add_sub_cancel_left, beq_iff_eq]
        omega
      rw [hA, hB, ih j]
      simp [List.getD_cons_succ]

/-- Helper: every position of a list of naturals summing to zero reads
zero. -/
theorem getD_eq_zero_of_sum_eq_zero (ws : List Nat) (i : Nat)
    (h : ws.sum = 0) : ws.getD i 0 = 0 := by
  induction ws generalizing i with
  | nil => simp
  | cons w ws ih =>
    simp only [List.sum_cons] at h
    cases i with
    | zero => simp [List.getD_cons_zero]; omega
    | succ j => simpa [List.getD_cons_succ] using ih j (by omega)

/-- C3 (amended): for an enum with at least one payload-carrying
non-ignored variant, the emitted `new_fuzzed` selects by weight: among
the `sum(weights)` equiprobable raw draws, a payload variant at kept
index `i` is produced for exactly `weight_i` of them — i.e. with
probability `weight_i / sum(weights)` — so a variant of weight 0 is never
selected.  (Enums whose variants all carry no payload instead draw
uniformly and ignore weights, as `unit_enum_weight_zero_selected`
establishes.) -/
theorem enum_weighted_frequency (vs : List EnumVariantSpec) (i : Nat)
    (hitems : enumContainsItems vs = true)
    (hi : i < (keptVariants vs).length)
    (hpay : ((keptVariants vs).getD i default).hasPayload = true) :
    (List.range (keptWeights vs).sum).countP
        (fun r => enumSelect vs r == some i)
      = (keptWeights vs).getD i 0 := by
  by_cases hsum : (keptWeights vs).sum = 0
  · rw [hsum, getD_eq_zero_of_sum_eq_zero (keptWeights vs) i hsum]
    simp
  · have hwin : weightedIndexNew (keptWeights vs) = some (keptWeights vs) := by
      simp [weightedIndexNew, hsum]
    have hlen : (keptWeights vs).length = (keptVariants vs).length := by
      simp [keptWeights]
    have hcong : ∀ r ∈ List.range (keptWeights vs).sum,
        (enumSelect vs r == some i) ↔
        (weightedSample (keptWeights vs) r == i) := by
      intro r hr
      have hrS : r < (keptWeights vs).sum := List.mem_range.mp hr
      have hslt : weightedSample (keptWeights vs) r
          < (keptVariants vs).length := by
        rw [← hlen]
        exact weightedSample_lt _ _ hrS
      have hget : (keptVariants vs).get? (weightedSample (keptWeights vs) r)
          = some ((keptVariants vs).get ⟨_, hslt⟩) :=
        List.get?_eq_get hslt
      have hsel : enumSelect vs r =
          (if ((keptVariants vs).get ⟨_, hslt⟩).hasPayload
           then some (weightedSample (keptWeights vs) r) else none) := by
        simp only [enumSelect, hitems, if_true, hwin, hget]
      by_cases hp2 : ((keptVariants vs).get ⟨_, hslt⟩).hasPayload = true
      · rw [hsel, if_pos hp2]
        simp [beq_iff_eq]
      · have hne : weightedSample (keptWeights vs) r ≠ i := by
          intro he
          apply hp2
          have : (keptVariants vs).get ⟨_, hslt⟩
              = (keptVariants vs).getD i default := by
            rw [List.get_eq_getElem, List.getD_eq_getElem _ _ hi]
            congr 1
          rw [this]
          exact hpay
        rw [hsel, if_neg hp2]
        simp [beq_iff_eq, hne]
    rw [List.countP_congr hcong]
    exact weightedSample_count _ i

/-- Witness for `enum_weighted_frequency`: payload variants with weights
1 and 3; kept index 1 is selected for exactly 3 of the 4 raw draws. -/
theorem enum_weighted_frequency_witness :
    (List.range (keptWeights [⟨1, false, true, 1⟩, ⟨3, false, true, 1⟩]).sum).countP
        (fun r => enumSelect [⟨1, false, true, 1⟩, ⟨3, false, true, 1⟩] r == some 1)
      = (keptWeights [⟨1, false, true, 1⟩, ⟨3, false, true, 1⟩]).getD 1 0 :=
  enum_weighted_frequency [⟨1, false, true, 1⟩, ⟨3, false, true, 1⟩] 1
    (by decide) (by decide) (by decide)

end Lain

namespace Lain

/-- C7 (amended): the payload fields of a chosen enum variant are
generated with `None` constraints — whatever constraints (and remaining
`max_size`) the enum's `new_fuzzed` was called with, every constraint
argument passed down to a payload field is `none`. -/
theorem enum_payload_constraints_none (vs : List EnumVariantSpec)
    (cs : Option Constraints) (r i : Nat) (tr : List (Option Constraints))
    (h : enumNewFuzzedWithTrace vs cs r = some (i, tr)) :
    tr.all Option.isNone = true := by
  simp only [enumNewFuzzedWithTrace, Option.bind_eq_some,
    Option.map_eq_some'] at h
  obtain ⟨j, _, v, _, heq⟩ := h
  simp only [Prod.mk.injEq] at heq
  obtain ⟨-, htr⟩ := heq
  rw [← htr, List.all_eq_true]
  intro c hc
  rw [List.eq_of_mem_replicate hc]
  rfl

/-- Witness for `enum_payload_constraints_none`: a one-variant enum with
two payload fields, called with an incoming `max_size` of 5; both fields
are nevertheless generated under `none`. -/
theorem enum_payload_constraints_none_witness :
    ([none, none] : List (Option Constraints)).all Option.isNone = true :=
  enum_payload_constraints_none [⟨1, false, true, 2⟩]
    (some ⟨none, none, Weighted.None, some 5⟩) 0 0 [none, none] (by decide)

/-- C7 counterexample: generating a one-payload-field variant with an
incoming constraint whose remaining `max_size` is 5 passes `none` to the
field — `NewFuzzed::new_fuzzed(mutator, None)` — which does not carry the
remaining budget, contrary to the claim. -/
theorem enum_payload_budget_not_propagated :
    enumNewFuzzedWithTrace [⟨1, false, true, 1⟩]
      (some ⟨none, none, Weighted.None, some 5⟩) 0
      = some (0, [none]) ∧
    specDerivedConstraintCarriesBudget none (some 5) = false := by
  decide

end Lain

namespace Lain

/-! ### Model of the mutate derive for enums
(`src/lain_derive/src/fuzzerobject.rs`, `gen_mutate_impl`, lines 69-155) -/

/-- The macro's `enum_has_simple_variants` flag (lines 76-116): scanning
the variants in order, it is set (and the scan stops) as soon as a unit
variant is seen; equivalently, it holds iff some variant carries no
payload.  `payloadFlags` lists, in declaration order, whether each
variant carries payload. -/
def enumHasSimpleVariants (payloadFlags : List Bool) : Bool :=
  payloadFlags.any (fun p => !p)

/-- The emitted `mutate` body for an enum value, modelled on values as
`(variant index, payload state)` pairs (lines 118-130).  If the enum has
any unit variant, the whole value is replaced by a fresh `new_fuzzed`
result — `newValue`, the outcome of that call for the current rng state
(`none` when generation panics).  Otherwise the emitted `match` recurses
into the held variant's payload via `mutatePayload`, leaving the variant
index untouched. -/
def enumMutate {α : Type} (payloadFlags : List Bool)
    (newValue : Option (Nat × α)) (mutatePayload : Nat → α → α)
    (v : Nat × α) : Option (Nat × α) :=
  if enumHasSimpleVariants payloadFlags then newValue
  else some (v.1, mutatePayload v.1 v.2)

/-- C4 counterexample: the enum `Mixed` has payload variant `A(u8)` at
index 0 and unit variant `B` at index 1 — so at least one variant carries
a payload, the claim's premise.  A value holding `B` (index 1) is mutated
by wholesale regeneration (because a unit variant exists), and with raw
draw 0 the weighted selection picks `A`, producing variant index 0 with a
fresh payload: the active variant changed, contrary to the claim. -/
theorem enum_mixed_mutate_changes_variant :
    enumMutate [true, false]
      ((enumSelect [⟨1, false, true, 1⟩, ⟨1, false, false, 0⟩] 0).map
        (fun j => (j, (7 : Nat))))
      (fun _ a => a) (1, 0) = some (0, 7) ∧ (1 : Nat) ≠ 0 := by
  decide

/-- C4 (amended): for an enum **all** of whose variants carry a payload,
the emitted `mutate` recurses only into the payload of the variant the
value currently holds, and the active variant after mutation is the same
as before.  (With any unit variant present, the whole value is
regenerated and the variant may change, as
`enum_mixed_mutate_changes_variant` shows.) -/
theorem enum_mutate_preserves_variant {α : Type} (payloadFlags : List Bool)
    (newValue : Option (Nat × α)) (mutatePayload : Nat → α → α)
    (v : Nat × α) (h : payloadFlags.all (fun p => p) = true) :
    enumMutate payloadFlags newValue mutatePayload v
      = some (v.1, mutatePayload v.1 v.2) := by
  have hsimple : enumHasSimpleVariants payloadFlags = false := by
    rw [enumHasSimpleVariants, List.any_eq_false]
    intro p hp
    rw [List.all_eq_true] at h
    simp [h p hp]
  rw [enumMutate, hsimple]
  simp

/-- Witness for `enum_mutate_preserves_variant`: an all-payload enum
value at variant 0 with payload 5 mutates to variant 0 with payload 6. -/
theorem enum_mutate_preserves_variant_witness :
    enumMutate [true] (none : Option (Nat × Nat)) (fun _ a => a + 1) (0, 5)
      = some (0, 6) :=
  enum_mutate_preserves_variant [true] none (fun _ a => a + 1) (0, 5)
    (by decide)

end Lain

namespace Lain

/-! ### Model of the mutate derive for structs
(`gen_struct_mutate_impl`, lines 157-189, and the method wrapper in
`gen_mutate_impl`, lines 145-154) -/

/-- Result of one emitted struct `mutate` pass: the field values after
the pass, the constraints argument passed to each field visited, and
whether the pass early-bailed. -/
structure StructMutateResult (α : Type) where
  vals : List α
  trace : List (Option Constraints)
  bailed : Bool
deriving DecidableEq

/-- The emitted per-field mutation sequence (`gen_struct_mutate_impl`,
lines 157-189).  Each field in declaration order is mutated with the
**unchanged** incoming `constraints` — the `max_size` decrement exists in
the source only as a commented-out `TODO` block.  After each field the
driver is asked `should_early_bail_mutation()` (oracle `bail`); on a bail
the field just mutated is optionally fixed up (`should_fixup()`, oracle
`fix`) before returning immediately.  Oracles are indexed by call site
and shifted on recursion; a field is the pair of its `mutate` and `fixup`
functions, values are carried positionally. -/
def structMutateGo {α : Type} :
    List ((Option Constraints → α → α) × (α → α)) → List α →
    Option Constraints → (Nat → Bool) → (Nat → Bool) → StructMutateResult α
  | [], vals, _, _, _ => ⟨vals, [], false⟩
  | _ :: _, [], _, _, _ => ⟨[], [], false⟩
  | (mf, ff) :: fs, v :: vs, cs, bail, fix =>
    let v1 := mf cs v
    if bail 0 then
      ⟨(if fix 0 then ff v1 else v1) :: vs, [cs], true⟩
    else
      let rest := structMutateGo fs vs cs (fun i => bail (i + 1))
        (fun i => fix (i + 1))
      ⟨v1 :: rest.vals, cs :: rest.trace, rest.bailed⟩

/-- The full emitted `mutate` method for a struct (`gen_mutate_impl`,
lines 145-154): run the per-field pass; when it returns **without** an
early bail, `should_fixup()` (`outerFix`) decides whether the struct's
`fixup` — which per `get_post_mutation_impl` (lines 11-38) fixes up every
field — runs over the result.  An early bail `return`s out of the method
first, skipping this. -/
def structMutateMethod {α : Type}
    (fs : List ((Option Constraints → α → α) × (α → α))) (vals : List α)
    (cs : Option Constraints) (bail fix : Nat → Bool) (outerFix : Bool) :
    StructMutateResult α :=
  let r := structMutateGo fs vals cs bail fix
  if r.bailed then r
  else if outerFix then
    ⟨List.zipWith (fun f v => f.2 v) fs r.vals, r.trace, r.bailed⟩
  else r

/-- Unfolding: a field whose early-bail query answers yes. -/
theorem structMutateGo_cons_bail {α : Type}
    (mf : Option Constraints → α → α) (ff : α → α)
    (fs : List ((Option Constraints → α → α) × (α → α))) (v : α)
    (vs : List α) (cs : Option Constraints) (bail fix : Nat → Bool)
    (h : bail 0 = true) :
    structMutateGo ((mf, ff) :: fs) (v :: vs) cs bail fix
      = ⟨(if fix 0 then ff (mf cs v) else mf cs v) :: vs, [cs], true⟩ := by
  simp [structMutateGo, h]

/-- Unfolding: a field whose early-bail query answers no. -/
theorem structMutateGo_cons_continue {α : Type}
    (mf : Option Constraints → α → α) (ff : α → α)
    (fs : List ((Option Constraints → α → α) × (α → α))) (v : α)
    (vs : List α) (cs : Option Constraints) (bail fix : Nat → Bool)
    (h : bail 0 = false) :
    structMutateGo ((mf, ff) :: fs) (v :: vs) cs bail fix
      = ⟨mf cs v :: (structMutateGo fs vs cs (fun i => bail (i + 1))
            (fun i => fix (i + 1))).vals,
         cs :: (structMutateGo fs vs cs (fun i => bail (i + 1))
            (fun i => fix (i + 1))).trace,
         (structMutateGo fs vs cs (fun i => bail (i + 1))
            (fun i => fix (i + 1))).bailed⟩ := by
  simp [structMutateGo, h]

/-- C5: the constraint argument passed to every field of a struct
mutation pass is the incoming one, unchanged — the pass never decrements
`max_size` (the decrement is a commented-out `TODO` in the source).
Evaluated at the failing input: two fields, incoming `max_size = Some 10`,
the first field's mutated value of serialized size 4 — the second field
still receives `max_size = Some 10`, where the claim demands
`Some (10 - 4) = Some 6`. -/
theorem mutate_budget_not_decremented :
    (structMutateGo
        [(fun _ _ => 4, id), (fun _ v => v, id)]
        ([0, 9] : List Nat)
        (some ⟨none, none, Weighted.None, some 10⟩)
        (fun _ => false) (fun _ => false)).trace
      = [some ⟨none, none, Weighted.None, some 10⟩,
         some ⟨none, none, Weighted.None, some 10⟩] ∧
    (10 : Nat) - 4 ≠ 10 := by
  constructor
  · rfl
  · decide

/-- Frame property of the per-field pass: if the first early bail happens
at field `k`, every field past `k` keeps its pre-mutation value, and the
pass reports the bail. -/
theorem structMutateGo_bail_frame {α : Type}
    (fs : List ((Option Constraints → α → α) × (α → α))) (vals : List α)
    (cs : Option Constraints) (bail fix : Nat → Bool) (k j : Nat) (d : α)
    (hbail : bail k = true) (hprev : ∀ i, i < k → bail i = false)
    (hk : k < fs.length) (hlen : vals.length = fs.length) (hj : k < j) :
    (structMutateGo fs vals cs bail fix).vals.getD j d = vals.getD j d ∧
    (structMutateGo fs vals cs bail fix).bailed = true := by
  induction fs generalizing vals bail fix k j with
  | nil => exact absurd hk (by simp)
  | cons f fs ih =>
    obtain ⟨mf, ff⟩ := f
    cases vals with
    | nil => simp at hlen
    | cons v vs =>
      cases k with
      | zero =>
        rw [structMutateGo_cons_bail mf ff fs v vs cs bail fix hbail]
        refine ⟨?_, rfl⟩
        cases j with
        | zero => exact absurd hj (lt_irrefl 0)
        | succ j' => simp [List.getD_cons_succ]
      | succ k' =>
        have hb0 : bail 0 = false := hprev 0 (Nat.succ_pos k')
        rw [structMutateGo_cons_continue mf ff fs v vs cs bail fix hb0]
        cases j with
        | zero => exact absurd hj (Nat.not_lt_zero _).elim
        | succ j' =>
          have hk' : k' < fs.length := by
            simpa using hk
          have hlen' : vs.length = fs.length := by
            simpa using hlen
          have hj' : k' < j' := Nat.lt_of_succ_lt_succ hj
          have hbail' : (fun i => bail (i + 1)) k' = true := hbail
          have hprev' : ∀ i, i < k' → (fun i => bail (i + 1)) i = false :=
            fun i hi => hprev (i + 1) (Nat.succ_lt_succ hi)
          obtain ⟨h1, h2⟩ := ih vs (fun i => bail (i + 1))
            (fun i => fix (i + 1)) k' j' hbail' hprev' hk' hlen' hj'
          exact ⟨by simpa [List.getD_cons_succ] using h1, h2⟩

/-- C6: when struct mutation early-bails after mutating field `k` (the
bail oracle first answers yes at field `k`), every field after `k` is
left unchanged from its pre-mutation value — the method returns
immediately, fixing up at most the field it stopped on and skipping the
whole-struct fixup pass. -/
theorem struct_mutate_early_bail_frame {α : Type}
    (fs : List ((Option Constraints → α → α) × (α → α))) (vals : List α)
    (cs : Option Constraints) (bail fix : Nat → Bool) (outerFix : Bool)
    (k j : Nat) (d : α)
    (hbail : bail k = true) (hprev : ∀ i, i < k → bail i = false)
    (hk : k < fs.length) (hlen : vals.length = fs.length) (hj : k < j) :
    (structMutateMethod fs vals cs bail fix outerFix).vals.getD j d
      = vals.getD j d := by
  obtain ⟨h1, h2⟩ := structMutateGo_bail_frame fs vals cs bail fix k j d
    hbail hprev hk hlen hj
  simp only [structMutateMethod, h2, if_true]
  exact h1

/-- Witness for `struct_mutate_early_bail_frame`: three fields that each
add 1 when mutated; the bail oracle answers yes at field 0, so fields 1
and 2 keep their pre-mutation values (field 2 shown). -/
theorem struct_mutate_early_bail_frame_witness :
    (structMutateMethod
        [(fun _ v => v + 1, id), (fun _ v => v + 1, id),
         (fun _ v => v + 1, id)]
        ([10, 20, 30] : List Nat) none (fun i => i == 0) (fun _ => false)
        true).vals.getD 2 0
      = ([10, 20, 30] : List Nat).getD 2 0 :=
  struct_mutate_early_bail_frame
    [(fun _ v => v + 1, id), (fun _ v => v + 1, id), (fun _ v => v + 1, id)]
    [10, 20, 30] none (fun i => i == 0) (fun _ => false) true 0 2 0
    (by decide) (fun i hi => absurd hi (Nat.not_lt_zero i)) (by decide)
    (by decide) (by decide)

end Lain

namespace Lain

/-! ### Model of the NewFuzzed derive for structs — size budget
(`gen_struct_new_fuzzed_impl`, `new_fuzzed.rs` lines 213-341) -/

/-- Rust `usize` modulus on 64-bit targets. -/
def USIZE_MOD : Nat := 2 ^ 64

/-- Release-mode Rust wrapping subtraction on `usize`: `a - b` computed
modulo `2 ^ 64`.  (A debug build panics on the same overflow instead of
wrapping; either way the result is never clamped to zero.) -/
def wrappingSub (a b : Nat) : Nat :=
  (a + (USIZE_MOD - b % USIZE_MOD)) % USIZE_MOD

/-- The emitted per-field budget update (`new_fuzzed.rs` lines 283-287):
`if let Some(ref mut max_size) = max_size` then
`*max_size -= value.serialized_size()` — an **unchecked** `usize`
subtraction of the child's serialized size from the remaining budget. -/
def budgetAfterField (ms : Option Nat) (size : Nat) : Option Nat :=
  match ms with
  | some b => some (wrappingSub b size)
  | none => none

/-- The remaining `max_size` after the emitted struct `new_fuzzed` body
visits its fields (`new_fuzzed.rs` lines 308-331): the local budget is
read once from the incoming constraints; fields are visited in the order
given by `order` (a random permutation of the field indices when the
struct's size is variable, declaration order otherwise); each visited
field generates a child whose serialized size may depend on the budget it
was shown (`genSize` maps the passed `max_size` to that size), after
which the budget is updated by `budgetAfterField`. -/
def structNewFuzzedBudget (fields : List (Option Nat → Nat))
    (order : List Nat) (ms : Option Nat) : Option Nat :=
  order.foldl
    (fun ms i => budgetAfterField ms ((fields.getD i (fun _ => 0)) ms)) ms

/-- C1: the claim says a child value larger than the remaining `max_size`
makes the generator fail or clamp the budget.  Evaluated at the failing
input — remaining budget `Some 0`, a single field generating a child of
serialized size 1 — the emitted unchecked subtraction instead wraps: the
generation neither fails nor clamps, and proceeds with a remaining budget
of `2^64 - 1`. -/
theorem budget_decrement_wraps_not_clamps :
    structNewFuzzedBudget [fun _ => 1] [0] (some 0)
      = some (USIZE_MOD - 1) ∧
    USIZE_MOD - 1 ≠ 0 := by
  constructor
  · rfl
  · decide

end Lain
